import Mathlib

/-!
Verification of the Argus agent runtime against its specification.

Each section embeds one subsystem of the Rust source shallowly in Lean:
  * `Argus.Shell`   — `crates/argus-core/src/shell.rs` (`ShellPolicy::check`)
  * `Argus.Cipher`  — `crates/argus-crypto/src/cipher.rs` (ChaCha20-Poly1305)
  * `Argus.Vault`   — `crates/argus-crypto/src/vault.rs` (`SecureVault`)
  * `Argus.Memory`  — `crates/argus-memory/src/sqlite.rs` (`SqliteMemory`)
  * `Argus.Agent`   — `crates/argus-core/src/agent.rs` (`run_agent_turn`)

Rust strings are modelled as `List Char` where character structure matters and
as `List Nat` (UTF-8 bytes, each < 256) where Rust indexes by byte.  Machine
integers are `Nat` with explicit `% 2 ^ 32` where overflow can occur.
-/

namespace Argus.Shell

/-- Reasons a shell command can be denied (`ShellDenied` in shell.rs). -/
inductive ShellDenied where
  | empty
  | notAllowed (name : String)
  | subshellBlocked
  | dangerousRedirect
deriving DecidableEq, Repr

/-- A Rust `&str` viewed as its character sequence. -/
abbrev Chars := List Char

/-- Rust `str::trim`: drop whitespace from both ends. -/
def trimChars (s : Chars) : Chars :=
  ((s.dropWhile Char.isWhitespace).reverse.dropWhile Char.isWhitespace).reverse

/-- Rust `str::split(pred)`: split at every separator character; adjacent
separators produce empty segments, and there is always at least one segment. -/
def splitOnPred (p : Char → Bool) : Chars → List Chars
  | [] => [[]]
  | c :: rest =>
    match splitOnPred p rest with
    | [] => if p c then [[], []] else [[c]]
    | h :: t => if p c then [] :: h :: t else (c :: h) :: t

/-- Rust `str::split_whitespace`: whitespace-separated tokens, no empties. -/
def splitWS (s : Chars) : List Chars :=
  (splitOnPred Char.isWhitespace s).filter (fun t => t ≠ [])

/-- `trimmed.split_whitespace().next().unwrap_or("")`. -/
def firstToken (s : Chars) : Chars :=
  (splitWS s).headD []

def isPrefixOfChars : Chars → Chars → Bool
  | [], _ => true
  | _ :: _, [] => false
  | a :: as, b :: bs => a == b && isPrefixOfChars as bs

/-- Rust `str::contains(substring)`. -/
def isInfixOfChars (needle : Chars) : Chars → Bool
  | [] => isPrefixOfChars needle []
  | h :: t => isPrefixOfChars needle (h :: t) || isInfixOfChars needle t

/-- Rust `str::contains(char)`. -/
def containsChar (c : Char) (s : Chars) : Bool :=
  s.any (fun x => x == c)

/-- `cmd.rsplit('/').next().unwrap_or(cmd)`: the part after the last slash. -/
def basename (cmd : Chars) : Chars :=
  (splitOnPred (fun c => c == '/') cmd).getLastD []

/-- The default allowlist built in `ShellPolicy::default` (shell.rs 29-51). -/
def defaultAllowed : List String :=
  ["ls", "cat", "head", "tail", "wc", "find", "grep", "rg",
   "echo", "date", "pwd", "whoami", "uname", "which", "env",
   "file", "stat", "du", "df", "tree", "less", "sort", "uniq",
   "cut", "awk", "sed", "tr", "diff", "hexdump", "xxd",
   "curl", "wget",
   "git", "cargo", "npm", "node", "python3", "python", "pip",
   "rustc", "rustup", "make", "cmake",
   "docker", "kubectl",
   "jq", "yq",
   "tar", "zip", "unzip", "gzip", "gunzip",
   "mkdir", "cp", "mv", "touch", "tee",
   "chmod", "chown"]

/-- `ShellPolicy::is_allowed`: strip the path prefix, look up the basename. -/
def isAllowed (allowed : List String) (cmd : Chars) : Bool :=
  allowed.contains (String.mk (basename cmd))

/-- The per-segment loop of the pipe branch (shell.rs 92-100). -/
def checkSegments (allowed : List String) : List Chars → Except ShellDenied Unit
  | [] => .ok ()
  | seg :: rest =>
    let tok := firstToken (trimChars seg)
    if isAllowed allowed tok then checkSegments allowed rest
    else .error (.notAllowed (String.mk tok))

/-- The per-segment loop of the chaining branch (shell.rs 106-113): empty
segments are skipped, and a segment is only faulted when its first token is
non-empty and not allowlisted. -/
def checkChain (allowed : List String) : List Chars → Except ShellDenied Unit
  | [] => .ok ()
  | seg0 :: rest =>
    let seg := trimChars seg0
    if seg = [] then checkChain allowed rest
    else
      let tok := firstToken seg
      if tok ≠ [] ∧ ¬ isAllowed allowed tok then .error (.notAllowed (String.mk tok))
      else checkChain allowed rest

/-- `ShellPolicy::check` (shell.rs 78-132), with the branches in the order the
source tests them: trim/empty, pipes, chaining, subshell, dangerous redirect,
simple command.  The backtick character is written `Char.ofNat 96`. -/
def check (allowed : List String) (command : Chars) : Except ShellDenied Unit :=
  let trimmed := trimChars command
  if trimmed = [] then .error .empty
  else
    let firstTok := firstToken trimmed
    if containsChar '|' trimmed then
      checkSegments allowed (splitOnPred (fun c => c == '|') trimmed)
    else if isInfixOfChars ['&', '&'] trimmed ∨ containsChar ';' trimmed then
      checkChain allowed (splitOnPred (fun c => c == '&' ∨ c == ';') trimmed)
    else if isInfixOfChars ['$', '('] trimmed ∨ containsChar (Char.ofNat 96) trimmed then
      .error .subshellBlocked
    else if isInfixOfChars "> /dev/".data trimmed ∨ isInfixOfChars "> /etc/".data trimmed
        ∨ isInfixOfChars "> /sys/".data trimmed then
      .error .dangerousRedirect
    else if isAllowed allowed firstTok then .ok ()
    else .error (.notAllowed (String.mk firstTok))

end Argus.Shell

namespace Argus.Memory

open Argus.Shell (Chars)

/-- One row of the `memories` table (sqlite.rs 34-42).  SQLite REAL importance
values are modelled as `ℚ`: the store only ever compares importances and takes
`MAX`, never rounds, so any linear order embeds the non-NaN doubles exactly.
Timestamps are abstract ticks. -/
structure MemRow where
  id : Nat
  memoryType : String
  content : String
  reasoning : Option String
  importance : ℚ
  createdAt : Nat
  updatedAt : Nat
deriving DecidableEq, Repr

/-- The table, rows kept in rowid (insertion) order, plus the autoincrement
counter. -/
structure MemState where
  rows : List MemRow
  nextId : Nat
deriving DecidableEq, Repr

/-- SQLite default case folding for `LIKE`: ASCII letters only. -/
def foldAscii (c : Char) : Char :=
  if 'A' ≤ c ∧ c ≤ 'Z' then Char.ofNat (c.toNat + 32) else c

/-- SQLite `LIKE` matching (no ESCAPE clause), fuelled so that the recursion
is structural (every step shrinks `pattern.length + s.length`, so the fuel
`likeMatch` supplies is never exhausted): `%` matches any sequence, `_`
matches any single character, other characters compare case-insensitively on
ASCII letters. -/
def likeMatchFuel : Nat → Chars → Chars → Bool
  | 0, _, _ => false
  | fuel + 1, pattern, s =>
    match pattern, s with
    | [], [] => true
    | [], _ :: _ => false
    | '%' :: ps, s =>
      likeMatchFuel fuel ps s ||
        (match s with
         | [] => false
         | _ :: s2 => likeMatchFuel fuel ('%' :: ps) s2)
    | '_' :: _, [] => false
    | '_' :: ps, _ :: s2 => likeMatchFuel fuel ps s2
    | _ :: _, [] => false
    | p :: ps, c :: s2 => (foldAscii p == foldAscii c) && likeMatchFuel fuel ps s2

/-- SQLite `LIKE`. -/
def likeMatch (pattern s : Chars) : Bool :=
  likeMatchFuel (pattern.length + s.length + 1) pattern s

/-- The `%{}%` pattern built by `recall` and `forget`. -/
def likePatternFor (q : String) : Chars :=
  '%' :: q.data ++ ['%']

/-- `SqliteMemory::remember` (sqlite.rs 64-99): duplicate `content` raises the
importance to the max and refreshes `updated_at` on every matching row;
otherwise a fresh row is appended with the next rowid and both timestamps set
to now.  Returns the new state and the user-facing message. -/
def remember (s : MemState) (memoryType content : String) (reasoning : Option String)
    (importance : ℚ) (now : Nat) : MemState × String :=
  if s.rows.any (fun r => r.content == content) then
    ({ s with
        rows := s.rows.map (fun r =>
          if r.content == content then
            { r with importance := max r.importance importance, updatedAt := now }
          else r) },
     "✅ Memory updated (already existed)")
  else
    ({ rows := s.rows ++ [⟨s.nextId, memoryType, content, reasoning, importance, now, now⟩],
       nextId := s.nextId + 1 },
     "✅ Remembered [" ++ memoryType ++ "]: " ++ content)

/-- The WHERE clause of `recall` (sqlite.rs 109-136): an optional
`content LIKE %query%` filter and an optional `memory_type =` filter. -/
def rowMatches (query memoryType : Option String) (r : MemRow) : Bool :=
  (match query with
   | none => true
   | some q => likeMatch (likePatternFor q) r.content.data) &&
  (match memoryType with
   | none => true
   | some t => r.memoryType == t)

/-- The comparison used by `ORDER BY importance DESC`. -/
def impGE (a b : MemRow) : Prop := b.importance ≤ a.importance

instance : DecidableRel impGE := fun a b => inferInstanceAs (Decidable (b.importance ≤ a.importance))

instance : IsTotal MemRow impGE :=
  ⟨fun a b => (le_total a.importance b.importance).symm⟩

instance : IsTrans MemRow impGE :=
  ⟨fun _ _ _ hab hbc => le_trans hbc hab⟩

/-- `SqliteMemory::recall` (sqlite.rs 101-159).  The SQL orders by
`importance DESC` only; rows of equal importance are delivered in rowid order
(the order of the importance index and of a stable sort of the table), which a
stable insertion sort models.  `LIMIT` is `List.take`.  Each returned
`MemoryRecord` keeps the whole row here; the source projects
(memory_type, content, importance, created_at).  (Named `recallMem` because
`recall` is a reserved word in this environment.) -/
def recallMem (s : MemState) (query memoryType : Option String) (limit : Nat) : List MemRow :=
  (List.insertionSort impGE (s.rows.filter (rowMatches query memoryType))).take limit

/-- `SqliteMemory::forget` (sqlite.rs 161-172): `DELETE FROM memories WHERE
content LIKE %match%`, returning the changed-row count (which the source
formats as "✅ Forgot N memories"). -/
def forget (s : MemState) (contentMatch : String) : MemState × Nat :=
  let pat := likePatternFor contentMatch
  ({ s with rows := s.rows.filter (fun r => !likeMatch pat r.content.data) },
   (s.rows.filter (fun r => likeMatch pat r.content.data)).length)

end Argus.Memory

namespace Argus

/-- A Rust byte string (`Vec<u8>` / `&[u8]`): a list of naturals, each < 256
for meaningful inputs. -/
abbrev Bytes := List Nat

/-- UTF-8 encoding of one scalar value (Rust `char`). -/
def charUtf8 (c : Char) : Bytes :=
  let n := c.toNat
  if n < 0x80 then [n]
  else if n < 0x800 then
    [0xC0 ||| (n >>> 6), 0x80 ||| (n &&& 0x3F)]
  else if n < 0x10000 then
    [0xE0 ||| (n >>> 12), 0x80 ||| ((n >>> 6) &&& 0x3F), 0x80 ||| (n &&& 0x3F)]
  else
    [0xF0 ||| (n >>> 18), 0x80 ||| ((n >>> 12) &&& 0x3F),
     0x80 ||| ((n >>> 6) &&& 0x3F), 0x80 ||| (n &&& 0x3F)]

/-- Rust `str::as_bytes` / `String::len`: the UTF-8 bytes of a string. -/
def strUtf8 (s : String) : Bytes :=
  s.data.foldr (fun c acc => charUtf8 c ++ acc) []

end Argus

namespace Argus.Cipher

open Argus (Bytes)

/-- 32-bit wraparound addition. -/
def add32 (a b : Nat) : Nat := (a + b) % 2 ^ 32

/-- 32-bit left rotation (argument assumed < 2^32). -/
def rotl32 (x n : Nat) : Nat := ((x <<< n) % 2 ^ 32) ||| (x >>> (32 - n))

/-- Little-endian 32-bit word from four bytes. -/
def leWord (b0 b1 b2 b3 : Nat) : Nat :=
  b0 + 256 * b1 + 65536 * b2 + 16777216 * b3

/-- Groups of four little-endian bytes to words (trailing fragment dropped;
inputs always have length a multiple of 4). -/
def bytesToWords : Bytes → List Nat
  | b0 :: b1 :: b2 :: b3 :: rest => leWord b0 b1 b2 b3 :: bytesToWords rest
  | _ => []

/-- `k` little-endian bytes of `n`. -/
def toLEBytes : Nat → Nat → Bytes
  | 0, _ => []
  | k + 1, n => n % 256 :: toLEBytes k (n / 256)

/-- Words serialized as little-endian byte quadruples. -/
def wordsToBytes (ws : List Nat) : Bytes :=
  ws.foldr (fun w acc => toLEBytes 4 w ++ acc) []

/-- ChaCha20 quarter round on state positions `ia ib ic id` (RFC 8439 2.1). -/
def qr (s : List Nat) (ia ib ic id : Nat) : List Nat :=
  let a := s.getD ia 0
  let b := s.getD ib 0
  let c := s.getD ic 0
  let d := s.getD id 0
  let a1 := add32 a b
  let d1 := rotl32 (d ^^^ a1) 16
  let c1 := add32 c d1
  let b1 := rotl32 (b ^^^ c1) 12
  let a2 := add32 a1 b1
  let d2 := rotl32 (d1 ^^^ a2) 8
  let c2 := add32 c1 d2
  let b2 := rotl32 (b1 ^^^ c2) 7
  (((s.set ia a2).set ib b2).set ic c2).set id d2

/-- One ChaCha20 double round: four column then four diagonal quarter rounds. -/
def doubleRound (s : List Nat) : List Nat :=
  let s := qr s 0 4 8 12
  let s := qr s 1 5 9 13
  let s := qr s 2 6 10 14
  let s := qr s 3 7 11 15
  let s := qr s 0 5 10 15
  let s := qr s 1 6 11 12
  let s := qr s 2 7 8 13
  qr s 3 4 9 14

def iterN (f : α → α) : Nat → α → α
  | 0, a => a
  | n + 1, a => iterN f n (f a)

/-- The initial ChaCha20 state: constants, 8 key words, counter, 3 nonce
words (RFC 8439 2.3). -/
def chachaInit (key : Bytes) (counter : Nat) (nonce : Bytes) : List Nat :=
  [0x61707865, 0x3320646e, 0x79622d32, 0x6b206574] ++
    bytesToWords key ++ (counter % 2 ^ 32 :: bytesToWords nonce)

/-- One 64-byte ChaCha20 block: 10 double rounds, add the initial state,
serialize little-endian. -/
def chachaBlock (key : Bytes) (counter : Nat) (nonce : Bytes) : Bytes :=
  let init := chachaInit key counter nonce
  wordsToBytes (List.zipWith add32 init (iterN doubleRound 10 init))

/-- Byte `i` of the encryption keystream; the block counter starts at 1
(counter 0 is reserved for the Poly1305 key). -/
def keystreamByte (key nonce : Bytes) (i : Nat) : Nat :=
  (chachaBlock key (1 + i / 64) nonce).getD (i % 64) 0

def keystream (key nonce : Bytes) (len : Nat) : Bytes :=
  (List.range len).map (keystreamByte key nonce)

/-- The Poly1305 prime 2^130 - 5. -/
def P1305 : Nat := 2 ^ 130 - 5

/-- Little-endian number from bytes. -/
def leNum : Bytes → Nat
  | [] => 0
  | b :: rest => b + 256 * leNum rest

/-- Clamping of the Poly1305 `r` half (RFC 8439 2.5). -/
def clampR (r : Nat) : Nat := r &&& 0x0ffffffc0ffffffc0ffffffc0fffffff

/-- Split a message into 16-byte chunks (last possibly shorter). -/
def chunks16 (l : Bytes) : List Bytes :=
  if h : l = [] then []
  else l.take 16 :: chunks16 (l.drop 16)
termination_by l.length
decreasing_by
  simp only [List.length_drop]
  have := List.length_pos.mpr h
  omega

/-- Poly1305 MAC: 32-byte `r || s` key, message, 16-byte tag (RFC 8439 2.5).
Appending the `0x01` byte to a chunk is adding `2 ^ (8 * length)`. -/
def polyMac (rsKey : Bytes) (msg : Bytes) : Bytes :=
  let r := clampR (leNum (rsKey.take 16))
  let s := leNum (rsKey.drop 16)
  let acc := (chunks16 msg).foldl
    (fun acc blk => ((acc + leNum blk + 2 ^ (8 * blk.length)) * r) % P1305) 0
  toLEBytes 16 ((acc + s) % 2 ^ 128)

/-- Zero padding up to a 16-byte multiple. -/
def pad16Len (n : Nat) : Nat := (16 - n % 16) % 16

/-- The Poly1305 input of the AEAD (RFC 8439 2.8) with empty AAD, as the
source always uses it: ciphertext, padding, 8-byte LE AAD length (0),
8-byte LE ciphertext length. -/
def macData (ct : Bytes) : Bytes :=
  ct ++ List.replicate (pad16Len ct.length) 0 ++ toLEBytes 8 0 ++ toLEBytes 8 ct.length

/-- The one-time Poly1305 key: first 32 bytes of the counter-0 block. -/
def polyKeyBytes (key nonce : Bytes) : Bytes :=
  (chachaBlock key 0 nonce).take 32

def aeadTag (key nonce ct : Bytes) : Bytes :=
  polyMac (polyKeyBytes key nonce) (macData ct)

/-- ChaCha20-Poly1305 sealing: ciphertext then 16-byte tag, as the
`chacha20poly1305` crate returns it. -/
def aeadEncrypt (key nonce pt : Bytes) : Bytes :=
  let ct := List.zipWith Nat.xor pt (keystream key nonce pt.length)
  ct ++ aeadTag key nonce ct

/-- ChaCha20-Poly1305 opening: split the trailing 16-byte tag, verify it,
decrypt.  `none` is the crate's opaque error. -/
def aeadDecrypt (key nonce data : Bytes) : Option Bytes :=
  if data.length < 16 then none
  else
    let ct := data.take (data.length - 16)
    let tag := data.drop (data.length - 16)
    if aeadTag key nonce ct = tag then
      some (List.zipWith Nat.xor ct (keystream key nonce ct.length))
    else none

/-- `CipherError` (cipher.rs 22-35). -/
inductive CipherError where
  | encryptionFailed
  | decryptionFailed
  | invalidKeySize (n : Nat)
  | invalidNonceSize (n : Nat)
deriving DecidableEq, Repr

/-- `encrypt` (cipher.rs 55-76): key-size check, then `nonce || ct || tag`.
The freshly sampled RNG nonce is the explicit `nonce` argument. -/
def encrypt (key nonce plaintext : Bytes) : Except CipherError Bytes :=
  if key.length ≠ 32 then .error (.invalidKeySize key.length)
  else .ok (nonce ++ aeadEncrypt key nonce plaintext)

/-- `decrypt` (cipher.rs 81-101): key-size check, minimum length check,
split the 12-byte nonce, open. -/
def decrypt (key ciphertext : Bytes) : Except CipherError Bytes :=
  if key.length ≠ 32 then .error (.invalidKeySize key.length)
  else if ciphertext.length < 12 then .error .decryptionFailed
  else
    match aeadDecrypt key (ciphertext.take 12) (ciphertext.drop 12) with
    | some pt => .ok pt
    | none => .error .decryptionFailed

end Argus.Cipher

namespace Argus.Vault

open Argus (Bytes strUtf8)

/-- `VaultError` (vault.rs 17-31); the payload-free constructors carry what the
claims need. -/
inductive VaultError where
  | locked
  | notFound (name : String)
  | encryption
  | decryption
  | io (msg : String)
  | keychain (msg : String)
deriving DecidableEq, Repr

/-- `SecureVault` (vault.rs 33-37) plus the on-disk file: `save` serializes the
in-memory `secrets` map, so the file is modelled as the map it encodes.  The
`HashMap<String, Vec<u8>>` is an association list with unique keys. -/
structure VaultState where
  masterKey : Option Bytes
  secrets : List (String × Bytes)
  file : List (String × Bytes)
deriving DecidableEq, Repr

/-- `HashMap::insert`: replace the existing binding or append a new one. -/
def mapInsert (m : List (String × Bytes)) (k : String) (v : Bytes) : List (String × Bytes) :=
  if m.any (fun p => p.1 == k) then
    m.map (fun p => if p.1 == k then (k, v) else p)
  else m ++ [(k, v)]

/-- `HashMap::remove`'s effect on the map. -/
def mapRemove (m : List (String × Bytes)) (k : String) : List (String × Bytes) :=
  m.filter (fun p => p.1 != k)

/-- `HashMap::get`. -/
def mapGet (m : List (String × Bytes)) (k : String) : Option Bytes :=
  (m.find? (fun p => p.1 == k)).map Prod.snd

/-- `SecureVault::store` (vault.rs 79-92): locked check, fresh 12-byte RNG
nonce (the explicit argument), ChaCha20-Poly1305 seal, `nonce || ct` into the
map, `save`. -/
def store (v : VaultState) (name secret : String) (nonce : Bytes) :
    Except VaultError VaultState :=
  match v.masterKey with
  | none => .error .locked
  | some key =>
    let stored := nonce ++ Argus.Cipher.aeadEncrypt key nonce (strUtf8 secret)
    let secrets := mapInsert v.secrets name stored
    .ok { v with secrets := secrets, file := secrets }

/-- `SecureVault::retrieve` (vault.rs 94-102): locked check, lookup, split the
12-byte nonce, open.  The source additionally re-decodes the plaintext as
UTF-8; the claims only need the byte-level result. -/
def retrieve (v : VaultState) (name : String) : Except VaultError Bytes :=
  match v.masterKey with
  | none => .error .locked
  | some key =>
    match mapGet v.secrets name with
    | none => .error (.notFound name)
    | some stored =>
      match Argus.Cipher.aeadDecrypt key (stored.take 12) (stored.drop 12) with
      | none => .error .decryption
      | some pt => .ok pt

/-- `SecureVault::list_keys` (vault.rs 104-106).  Note: no locked check, and
the Rust return type `Vec<String>` cannot fail. -/
def listKeys (v : VaultState) : List String :=
  v.secrets.map Prod.fst

/-- `SecureVault::delete` (vault.rs 108-111): remove-or-`NotFound`, then
`save`.  Note: no locked check. -/
def delete (v : VaultState) (name : String) : Except VaultError VaultState :=
  if v.secrets.any (fun p => p.1 == name) then
    let secrets := mapRemove v.secrets name
    .ok { v with secrets := secrets, file := secrets }
  else .error (.notFound name)

end Argus.Vault

namespace Argus.Agent

open Argus (Bytes)

/-- Rust `str::is_char_boundary` at byte index `i`: true at 0, true at the end,
false past the end, otherwise true iff the byte at `i` is not a UTF-8
continuation byte `0x80..0xBF`. -/
def isCharBoundary (bytes : Bytes) (i : Nat) : Bool :=
  if i = 0 then true
  else
    match bytes.get? i with
    | none => i == bytes.length
    | some b => ¬ (128 ≤ b ∧ b < 192)

/-- The ToolResult preview (agent.rs 198-202): the result itself when at most
100 bytes, otherwise `format!("{}...", &result[..100])`.  The byte slice
`&result[..100]` panics when index 100 is not a character boundary; the panic
is `none`.  `[46, 46, 46]` is `"..."`. -/
def resultPreview (result : Bytes) : Option Bytes :=
  if result.length > 100 then
    if isCharBoundary result 100 then some (result.take 100 ++ [46, 46, 46])
    else none
  else some result

/-- One entry of `m.tool_calls`.  The human preview of the parsed arguments
(the per-tool JSON projection of agent.rs 164-178) is carried as a field. -/
structure ToolCallReq where
  id : String
  name : String
  argsPreview : String
deriving DecidableEq, Repr

/-- What one POST to the chat-completion endpoint can come back as:
a transport failure (agent.rs 116-129), a body that fails to parse
(agent.rs 131-134), a top-level `error` object with its resolved message
(agent.rs 137-142), or `choices[0].message` with its optional content and
tool-call list (agent.rs 144-157). -/
inductive ApiOutcome where
  | sendFailure (msg : String)
  | parseFailure (msg : String)
  | apiError (msg : String)
  | message (content : Option String) (toolCalls : List ToolCallReq)
deriving DecidableEq, Repr

/-- `AgentEvent` (agent.rs 32-44).  ToolResult previews are byte strings
because the source builds them by byte slicing. -/
inductive AgentEvent where
  | thinking
  | toolCall (name : String) (preview : String)
  | toolResult (name : String) (preview : Bytes)
  | response (text : String)
  | error (text : String)
deriving DecidableEq, Repr

/-- How one call to `run_agent_turn` ends: `Ok(text)`, `Err(msg)`, or a panic
while computing a result preview. -/
inductive TurnResult where
  | ok (text : String)
  | err (msg : String)
  | panicked
deriving DecidableEq, Repr

/-- `MAX_TOOL_ROUNDS` (agent.rs 12). -/
def maxToolRounds : Nat := 10

/-- The fixed message returned when the round limit is exhausted
(agent.rs 218). -/
def maxToolCallsMessage : String :=
  "I\x27ve reached the maximum number of tool calls. Here\x27s what I found so far based on the results above."

/-- The per-tool-call loop of one round (agent.rs 163-214): emit `ToolCall`,
dispatch (the result string an oracle `execTool` provides), compute the result
preview — possibly panicking — and emit `ToolResult`.  Returns the emitted
events and whether the loop survived. -/
def runCalls (execTool : ToolCallReq → Bytes) :
    List ToolCallReq → List AgentEvent × Bool
  | [] => ([], true)
  | c :: rest =>
    match resultPreview (execTool c) with
    | none => ([.toolCall c.name c.argsPreview], false)
    | some pv =>
      (.toolCall c.name c.argsPreview :: .toolResult c.name pv ::
        (runCalls execTool rest).1,
       (runCalls execTool rest).2)

/-- The round loop of `run_agent_turn` (agent.rs 115-221).  `endpoint r` is
what the POST of round `r` comes back as; the third component counts the
requests issued.  Transport and parse failures return via `?` without any
event; an endpoint-reported error emits `Error` and returns it; a reply
without tool calls emits `Response` of the content (default "(no response)")
and returns it; otherwise the tool calls run and the loop continues. -/
def loop (endpoint : Nat → ApiOutcome) (execTool : ToolCallReq → Bytes) :
    Nat → Nat → List AgentEvent × TurnResult × Nat
  | 0, _ => ([.response maxToolCallsMessage], .ok maxToolCallsMessage, 0)
  | fuel + 1, round =>
    match endpoint round with
    | .sendFailure msg => ([], .err ("API request failed: " ++ msg), 1)
    | .parseFailure msg => ([], .err ("Failed to parse API response: " ++ msg), 1)
    | .apiError msg => ([.error msg], .err msg, 1)
    | .message content calls =>
      if calls.isEmpty then
        ([.response (content.getD "(no response)")], .ok (content.getD "(no response)"), 1)
      else
        if (runCalls execTool calls).2 then
          ((runCalls execTool calls).1 ++ (loop endpoint execTool fuel (round + 1)).1,
           (loop endpoint execTool fuel (round + 1)).2.1,
           (loop endpoint execTool fuel (round + 1)).2.2 + 1)
        else ((runCalls execTool calls).1, .panicked, 1)

/-- `run_agent_turn` (agent.rs 68-221): emit `Thinking`, then run up to
`MAX_TOOL_ROUNDS` rounds.  Returns the events in emission order, the turn
result, and the number of requests issued. -/
def runAgentTurn (endpoint : Nat → ApiOutcome) (execTool : ToolCallReq → Bytes) :
    List AgentEvent × TurnResult × Nat :=
  (.thinking :: (loop endpoint execTool maxToolRounds 0).1,
   (loop endpoint execTool maxToolRounds 0).2)

/-- A trace fragment of (ToolCall, ToolResult) pairs in dispatch order, each
result event carrying the name of its call. -/
inductive PairTrace : List AgentEvent → Prop where
  | nil : PairTrace []
  | cons (n pv : String) (rv : Bytes) (rest : List AgentEvent) :
      PairTrace rest → PairTrace (.toolCall n pv :: .toolResult n rv :: rest)

/-- The built-in tool names in catalog order (tools.rs 10-163), which is also
exactly the set `execute_builtin` handles (tools.rs 176-187). -/
def builtinNames : List String :=
  ["read_file", "list_directory", "write_file", "shell", "web_search",
   "remember", "recall", "forget", "http_request"]

inductive ToolOrigin where
  | external
  | builtin
deriving DecidableEq, Repr

/-- The tool catalog built at the start of a turn (agent.rs 84-106): all
external (MCP) tool names first, then each built-in whose name is non-empty
and not already registered by an external tool. -/
def buildCatalog (mcpNames : List String) : List (String × ToolOrigin) :=
  mcpNames.map (fun n => (n, .external)) ++
    (builtinNames.filter (fun n => (n != "") && !(mcpNames.contains n))).map
      (fun n => (n, .builtin))

inductive DispatchTarget where
  | builtin
  | mcp
  | unknown
deriving DecidableEq, Repr

/-- Where an invocation of `name` is dispatched (agent.rs 185-196):
`execute_builtin` first — it handles every name in `builtinNames` — then the
MCP client, which routes to the first server advertising the name; otherwise
the result is the "Unknown tool" string. -/
def dispatch (mcpNames : List String) (name : String) : DispatchTarget :=
  if builtinNames.contains name then .builtin
  else if mcpNames.contains name then .mcp
  else .unknown

end Argus.Agent

/-! ## Theorems -/

namespace Argus.Shell

/-- Examples from the unit tests in shell.rs and spec section 8. -/
theorem check_examples :
    check defaultAllowed "ls -la".data = .ok () ∧
    check defaultAllowed "rm -rf /".data = .error (.notAllowed "rm") ∧
    check defaultAllowed "echo $(rm -rf /)".data = .error .subshellBlocked ∧
    check defaultAllowed "ls | grep foo".data = .ok () ∧
    check defaultAllowed "cat file | rm -rf /".data = .error (.notAllowed "rm") ∧
    check defaultAllowed "/usr/bin/ls -la".data = .ok () ∧
    check [] "ls".data = .error (.notAllowed "ls") := by
  exact ⟨rfl, rfl, rfl, rfl, rfl, rfl, rfl⟩

/-- C1: the claim says every trimmed-non-empty command line containing "$(" or
a backtick is denied with `SubshellBlocked` under every policy, including
lines that also contain pipe or chaining separators.  The source tests the
pipe branch first and returns early from it, so the subshell test is never
reached: `echo $(whoami) | cat` contains "$(" yet `check` accepts it under the
default policy — the claimed property fails on the code. -/
theorem c1_subshell_check_bypassed_by_pipe_branch :
    trimChars "echo $(whoami) | cat".data ≠ [] ∧
    isInfixOfChars "$(".data "echo $(whoami) | cat".data = true ∧
    check defaultAllowed "echo $(whoami) | cat".data = .ok () := by
  exact ⟨by decide, rfl, rfl⟩

end Argus.Shell

namespace Argus.Agent

/-- C10: the ToolResult preview is not total.  On the 101-byte UTF-8 encoding
of 99 `a` characters followed by `é`, byte offset 100 falls inside the
two-byte `é`, so `&result[..100]` panics (modelled as `none`). -/
theorem c10_result_preview_panics_inside_multibyte_char :
    Argus.strUtf8 (String.mk (List.replicate 99 'a' ++ [Char.ofNat 233])) =
      List.replicate 99 97 ++ [195, 169] ∧
    (List.replicate 99 97 ++ [195, 169] : Bytes).length = 101 ∧
    resultPreview (List.replicate 99 97 ++ [195, 169]) = none := by
  exact ⟨by decide, by decide, by decide⟩

/-- C2 counterexample: with an external server advertising `web_search`, the
catalog does contain exactly one `web_search` descriptor (the external one),
but the invocation is dispatched to the built-in implementation, not to the
external server — the dispatch half of the claim is false on the code. -/
theorem c2_web_search_dispatched_to_builtin_cex :
    (buildCatalog ["web_search"]).countP (fun e => e.1 == "web_search") = 1 ∧
    (buildCatalog ["web_search"]).find? (fun e => e.1 == "web_search") =
      some ("web_search", ToolOrigin.external) ∧
    dispatch ["web_search"] "web_search" = DispatchTarget.builtin ∧
    DispatchTarget.builtin ≠ DispatchTarget.mcp := by decide

/-- C2 amended: when the external client advertises a tool whose name `b`
equals a built-in name (exactly once), the catalog contains exactly one
descriptor named `b` and it is the external one; but every invocation of `b`
during the turn is dispatched to the built-in implementation, because
dispatch tries built-ins before the external client. -/
theorem c2_catalog_dedup_but_builtin_dispatch (mcpNames : List String) (b : String)
    (hb : b ∈ builtinNames) (hm : mcpNames.countP (fun n => n == b) = 1) :
    (buildCatalog mcpNames).countP (fun e => e.1 == b) = 1 ∧
    (∀ e ∈ buildCatalog mcpNames, e.1 = b → e.2 = ToolOrigin.external) ∧
    dispatch mcpNames b = DispatchTarget.builtin := by
  have hbmem : b ∈ mcpNames := by
    have hpos : 0 < mcpNames.countP (fun n => n == b) := by omega
    obtain ⟨a, ha, hab⟩ := List.countP_pos.mp hpos
    have hab2 : a = b := by simpa using hab
    exact hab2 ▸ ha
  have hcont : mcpNames.contains b = true := by simpa using hbmem
  have hbc : builtinNames.contains b = true := by simpa using hb
  refine ⟨?_, ?_, ?_⟩
  · rw [buildCatalog, List.countP_append, List.countP_map, List.countP_map]
    have h1 : List.countP ((fun e : String × ToolOrigin => e.1 == b) ∘
        fun n => (n, ToolOrigin.external)) mcpNames = 1 := by
      simpa [Function.comp] using hm
    have h2 : List.countP ((fun e : String × ToolOrigin => e.1 == b) ∘
        fun n => (n, ToolOrigin.builtin))
        (builtinNames.filter (fun n => (n != "") && !(mcpNames.contains n))) = 0 := by
      rw [List.countP_eq_zero]
      intro a ha
      have hfa := (List.mem_filter.mp ha).2
      simp only [Function.comp]
      intro hab
      have hab2 : a = b := by simpa using hab
      rw [hab2] at hfa
      simp only [Bool.and_eq_true, Bool.not_eq_true'] at hfa
      have : mcpNames.contains b = false := hfa.2
      rw [hcont] at this
      simp at this
    omega
  · intro e he heb
    rw [buildCatalog] at he
    rcases List.mem_append.mp he with h | h
    · obtain ⟨n, hn, rfl⟩ := List.mem_map.mp h
      rfl
    · obtain ⟨n, hn, rfl⟩ := List.mem_map.mp h
      have hfa := (List.mem_filter.mp hn).2
      have hnb : n = b := heb
      rw [hnb] at hfa
      simp only [Bool.and_eq_true, Bool.not_eq_true'] at hfa
      have : mcpNames.contains b = false := hfa.2
      rw [hcont] at this
      simp at this
  · simp [dispatch, hb]

/-- C2 witness: the amended theorem applied to a server advertising
`web_search`. -/
theorem c2_catalog_dedup_but_builtin_dispatch_witness :
    ("web_search" ∈ builtinNames ∧
      ["web_search"].countP (fun n => n == "web_search") = 1) ∧
    (buildCatalog ["web_search"]).countP (fun e => e.1 == "web_search") = 1 ∧
    dispatch ["web_search"] "web_search" = DispatchTarget.builtin := by
  have h := c2_catalog_dedup_but_builtin_dispatch ["web_search"] "web_search"
    (by decide) (by decide)
  exact ⟨⟨by decide, by decide⟩, h.1, h.2.2⟩

end Argus.Agent

namespace Argus.Vault

/-- C3 counterexample: on a locked vault, `list_keys` succeeds (its Rust
return type `Vec<String>` cannot even fail) and `delete` of an absent name
fails with `NotFound`, not with the `Locked` error the claim requires of
every data-path operation. -/
theorem c3_locked_vault_list_keys_succeeds_cex :
    listKeys ⟨none, [], []⟩ = [] ∧
    delete ⟨none, [], []⟩ "k" = .error (.notFound "k") ∧
    VaultError.notFound "k" ≠ VaultError.locked := by
  exact ⟨rfl, rfl, by decide⟩

/-- C3 amended: while the vault is locked, `store` and `retrieve` fail with
`Locked` and leave state and file untouched; but `list_keys` performs no lock
check and returns the in-memory key list, and `delete` performs no lock check
either — on the (empty-map) locked states the program can reach it fails with
`NotFound`, not `Locked`. -/
theorem c3_locked_vault_data_ops (v : VaultState) (name secret : String)
    (nonce : Argus.Bytes) (h : v.masterKey = none) :
    store v name secret nonce = .error .locked ∧
    retrieve v name = .error .locked ∧
    listKeys v = v.secrets.map Prod.fst ∧
    (v.secrets = [] → delete v name = .error (.notFound name)) := by
  refine ⟨?_, ?_, rfl, ?_⟩
  · simp [store, h]
  · simp [retrieve, h]
  · intro hs
    simp [delete, hs]

/-- C3 witness: the amended theorem applied to the locked vault fresh from
`SecureVault::new`. -/
theorem c3_locked_vault_data_ops_witness :
    (VaultState.mk none [] []).masterKey = none ∧
    store ⟨none, [], []⟩ "api_key" "sk-test" (List.replicate 12 0) = .error .locked ∧
    retrieve ⟨none, [], []⟩ "api_key" = .error .locked ∧
    delete ⟨none, [], []⟩ "api_key" = .error (.notFound "api_key") := by
  have h := c3_locked_vault_data_ops ⟨none, [], []⟩ "api_key" "sk-test"
    (List.replicate 12 0) rfl
  exact ⟨rfl, h.1, h.2.1, h.2.2.2 rfl⟩

end Argus.Vault

namespace Argus.Memory

theorem length_filter_add_not (p : α → Bool) (l : List α) :
    (l.filter p).length + (l.filter (fun a => !p a)).length = l.length := by
  induction l with
  | nil => rfl
  | cons a t ih => cases h : p a <;> simp [List.filter_cons, h] <;> omega

/-- C6 counterexample: SQLite `LIKE` is ASCII-case-insensitive, so
`forget("abc")` deletes the row whose content is "ABC" even though "ABC" does
not contain "abc" as a literal substring — the claim is false on the code. -/
theorem c6_forget_case_insensitive_cex :
    (forget ⟨[⟨1, "fact", "ABC", none, 5, 0, 0⟩], 2⟩ "abc").2 = 1 ∧
    (forget ⟨[⟨1, "fact", "ABC", none, 5, 0, 0⟩], 2⟩ "abc").1.rows = [] ∧
    Argus.Shell.isInfixOfChars "abc".data "ABC".data = false := by
  exact ⟨by decide, by decide, by decide⟩

/-- C6 amended: `forget(m)` deletes exactly those rows whose content matches
the SQL pattern `LIKE %m%` — ASCII-case-insensitive, with `%` and `_` in `m`
acting as wildcards — no other row is deleted, and it returns the number of
rows deleted. -/
theorem c6_forget_like_exactness (s : MemState) (m : String) :
    (forget s m).1.rows =
      s.rows.filter (fun r => !likeMatch (likePatternFor m) r.content.data) ∧
    (forget s m).2 =
      (s.rows.filter (fun r => likeMatch (likePatternFor m) r.content.data)).length ∧
    (forget s m).2 + (forget s m).1.rows.length = s.rows.length ∧
    (∀ r ∈ s.rows, likeMatch (likePatternFor m) r.content.data = true →
      r ∉ (forget s m).1.rows) ∧
    (∀ r ∈ s.rows, likeMatch (likePatternFor m) r.content.data = false →
      r ∈ (forget s m).1.rows) := by
  refine ⟨rfl, rfl, ?_, ?_, ?_⟩
  · exact length_filter_add_not (fun r => likeMatch (likePatternFor m) r.content.data) s.rows
  · intro r _ hlike hmem
    have hkept := (List.mem_filter.mp hmem).2
    simp [hlike] at hkept
  · intro r hr hnot
    exact List.mem_filter.mpr ⟨hr, by simp [hnot]⟩

/-- C6 witness: a matching row is deleted and counted, a non-matching row is
kept. -/
theorem c6_forget_like_exactness_witness :
    likeMatch (likePatternFor "abc") "xyz".data = false ∧
    (⟨2, "fact", "xyz", none, 5, 0, 0⟩ : MemRow) ∈
      (forget ⟨[⟨1, "fact", "ABC", none, 5, 0, 0⟩, ⟨2, "fact", "xyz", none, 5, 0, 0⟩], 3⟩
        "abc").1.rows := by
  refine ⟨by decide, ?_⟩
  exact (c6_forget_like_exactness
      ⟨[⟨1, "fact", "ABC", none, 5, 0, 0⟩, ⟨2, "fact", "xyz", none, 5, 0, 0⟩], 3⟩
      "abc").2.2.2.2 ⟨2, "fact", "xyz", none, 5, 0, 0⟩ (by decide) (by decide)

/-- C8: when exactly one row `r0` already has content `c`, a second
`remember` with any type, reasoning and importance inserts no row: the row
count is unchanged, the unique row with content `c` now carries
`max(old, new)` importance and `updated_at = now`, which strictly advanced. -/
theorem c8_remember_dedup (s : MemState) (t c : String) (reasoning : Option String)
    (i2 : ℚ) (now : Nat) (r0 : MemRow)
    (h1 : s.rows.filter (fun r => r.content == c) = [r0])
    (h2 : r0.updatedAt < now) :
    (remember s t c reasoning i2 now).1.rows.length = s.rows.length ∧
    (remember s t c reasoning i2 now).1.rows.filter (fun r => r.content == c) =
      [{ r0 with importance := max r0.importance i2, updatedAt := now }] ∧
    r0.updatedAt < now := by
  have hr0mem : r0 ∈ List.filter (fun r => r.content == c) s.rows := by
    rw [h1]; exact List.mem_singleton.mpr rfl
  have hr0s : r0 ∈ s.rows := (List.mem_filter.mp hr0mem).1
  have hr0c : (r0.content == c) = true := (List.mem_filter.mp hr0mem).2
  have hany : s.rows.any (fun r => r.content == c) = true :=
    List.any_eq_true.mpr ⟨r0, hr0s, hr0c⟩
  refine ⟨?_, ?_, h2⟩
  · simp [remember, hany]
  · simp only [remember, hany, if_true]
    rw [List.filter_map]
    have hcongr : List.filter ((fun r : MemRow => r.content == c) ∘
        (fun r => if r.content == c then
          { r with importance := max r.importance i2, updatedAt := now } else r)) s.rows =
        List.filter (fun r : MemRow => r.content == c) s.rows := by
      apply List.filter_congr
      intro x _
      by_cases hxc : (x.content == c) = true
      · simp [Function.comp, hxc]
      · simp only [Bool.not_eq_true] at hxc
        simp [Function.comp, hxc]
    rw [hcongr, h1]
    have hr0eq : r0.content = c := by simpa using hr0c
    simp [hr0eq]

/-- C8 witness: the spec section 8 dedup scenario, importance 3 then 8. -/
theorem c8_remember_dedup_witness :
    ([⟨1, "fact", "X", none, 3, 1, 1⟩] : List MemRow).filter (fun r => r.content == "X") =
      [⟨1, "fact", "X", none, 3, 1, 1⟩] ∧
    (1 : Nat) < 2 ∧
    (remember ⟨[⟨1, "fact", "X", none, 3, 1, 1⟩], 2⟩ "fact" "X" none 8 2).1.rows.filter
      (fun r => r.content == "X") = [⟨1, "fact", "X", none, 8, 1, 2⟩] := by
  have h := c8_remember_dedup ⟨[⟨1, "fact", "X", none, 3, 1, 1⟩], 2⟩ "fact" "X" none 8 2
    ⟨1, "fact", "X", none, 3, 1, 1⟩ (by decide) (by decide)
  refine ⟨by decide, by decide, ?_⟩
  rw [h.2.1]
  decide

/-- C9 counterexample: two rows of equal importance come back with
`created_at` ascending (table order), not descending: the query orders by
importance only. -/
theorem c9_equal_importance_created_at_ascending_cex :
    (recallMem ⟨[⟨1, "fact", "a", none, 5, 1, 1⟩, ⟨2, "fact", "b", none, 5, 2, 2⟩], 3⟩
        none none 10).map (fun r => (r.importance, r.createdAt)) = [(5, 1), (5, 2)] ∧
    ¬ ((1 : Nat) ≥ 2) := by
  exact ⟨by decide, by decide⟩

/-- C9 amended: every `recall` result has at most `limit` rows and is sorted
by importance descending; no secondary `created_at` ordering is applied (rows
of equal importance stay in table order, as the counterexample shows). -/
theorem c9_recall_sorted_and_limited (s : MemState) (q t : Option String) (limit : Nat) :
    (recallMem s q t limit).length ≤ limit ∧
    List.Sorted impGE (recallMem s q t limit) := by
  constructor
  · exact List.length_take_le _ _
  · exact List.Pairwise.sublist (List.take_sublist _ _)
      (List.sorted_insertionSort impGE (s.rows.filter (rowMatches q t)))

end Argus.Memory

namespace Argus.Cipher

theorem toLEBytes_length (k : Nat) : ∀ n, (toLEBytes k n).length = k := by
  induction k with
  | zero => intro n; rfl
  | succ k ih => intro n; simp [toLEBytes, ih]

theorem keystream_length (key nonce : Bytes) (len : Nat) :
    (keystream key nonce len).length = len := by
  simp [keystream]

theorem aeadTag_length (key nonce ct : Bytes) : (aeadTag key nonce ct).length = 16 := by
  simp [aeadTag, polyMac, toLEBytes_length]

theorem zipWith_xor_cancel : ∀ (p ks : Bytes), ks.length = p.length →
    List.zipWith Nat.xor (List.zipWith Nat.xor p ks) ks = p
  | [], _, _ => by simp
  | a :: t, [], h => by simp at h
  | a :: t, b :: kt, h => by
    simp only [List.zipWith_cons_cons, List.cons.injEq]
    exact ⟨Nat.xor_cancel_right b a, zipWith_xor_cancel t kt (by simpa using h)⟩

/-- Opening what sealing produced succeeds and returns the plaintext: the
recomputed tag is definitionally the stored one, and XORing with the same
keystream twice is the identity. -/
theorem aead_roundtrip (key nonce pt : Bytes) :
    aeadDecrypt key nonce (aeadEncrypt key nonce pt) = some pt := by
  have hkslen : (keystream key nonce pt.length).length = pt.length :=
    keystream_length key nonce pt.length
  set ct := List.zipWith Nat.xor pt (keystream key nonce pt.length) with hctdef
  have hctlen : ct.length = pt.length := by
    rw [hctdef, List.length_zipWith, hkslen]
    exact min_self _
  set tg := aeadTag key nonce ct with htgdef
  have htg : tg.length = 16 := aeadTag_length key nonce ct
  have henc : aeadEncrypt key nonce pt = ct ++ tg := rfl
  rw [henc]
  have hlen : (ct ++ tg).length = ct.length + 16 := by simp [htg]
  simp only [aeadDecrypt]
  rw [if_neg (by omega)]
  simp only [hlen, Nat.add_sub_cancel]
  rw [List.take_left, List.drop_left]
  rw [if_pos htgdef.symm]
  rw [hctlen, hctdef]
  exact congrArg some (zipWith_xor_cancel pt _ hkslen)

/-- C7: for every 32-byte key, every plaintext, and every 12-byte nonce the
RNG may sample during encryption, `decrypt(k, encrypt(k, p))` succeeds and
returns exactly `p`. -/
theorem c7_cipher_roundtrip (key nonce pt : Bytes)
    (hk : key.length = 32) (hn : nonce.length = 12) :
    ∃ blob, encrypt key nonce pt = .ok blob ∧ decrypt key blob = .ok pt := by
  refine ⟨nonce ++ aeadEncrypt key nonce pt, ?_, ?_⟩
  · rw [encrypt, if_neg (by omega)]
  · have htg : (aeadTag key nonce (List.zipWith Nat.xor pt
        (keystream key nonce pt.length))).length = 16 := aeadTag_length key nonce _
    have hlen : (nonce ++ aeadEncrypt key nonce pt).length =
        12 + ((List.zipWith Nat.xor pt (keystream key nonce pt.length)).length + 16) := by
      simp [aeadEncrypt, hn, htg]
    have htake : (nonce ++ aeadEncrypt key nonce pt).take 12 = nonce := by
      rw [← hn]; exact List.take_left nonce _
    have hdrop : (nonce ++ aeadEncrypt key nonce pt).drop 12 = aeadEncrypt key nonce pt := by
      rw [← hn]; exact List.drop_left nonce _
    simp only [decrypt]
    rw [if_neg (by omega), if_neg (by omega), htake, hdrop, aead_roundtrip]

/-- C7 witness: the round trip at a concrete key, nonce and plaintext. -/
theorem c7_cipher_roundtrip_witness :
    (List.replicate 32 7 : Bytes).length = 32 ∧
    (List.replicate 12 3 : Bytes).length = 12 ∧
    ∃ blob, encrypt (List.replicate 32 7) (List.replicate 12 3) [104, 105] = .ok blob ∧
      decrypt (List.replicate 32 7) blob = .ok [104, 105] := by
  exact ⟨by decide, by decide,
    c7_cipher_roundtrip (List.replicate 32 7) (List.replicate 12 3) [104, 105]
      (by decide) (by decide)⟩

end Argus.Cipher

namespace Argus.Agent

theorem PairTrace.append {a b : List AgentEvent} (ha : PairTrace a) (hb : PairTrace b) :
    PairTrace (a ++ b) := by
  induction ha with
  | nil => simpa using hb
  | cons n pv rv rest _ ih =>
    simpa using PairTrace.cons n pv rv (rest ++ b) ih

theorem runCalls_ok (execTool : ToolCallReq → Bytes)
    (hnp : ∀ c, (resultPreview (execTool c)).isSome = true) (calls : List ToolCallReq) :
    (runCalls execTool calls).2 = true ∧ PairTrace (runCalls execTool calls).1 := by
  induction calls with
  | nil => exact ⟨rfl, PairTrace.nil⟩
  | cons c rest ih =>
    obtain ⟨pv, hpv⟩ := Option.isSome_iff_exists.mp (hnp c)
    simp only [runCalls, hpv]
    exact ⟨ih.1, PairTrace.cons c.name c.argsPreview pv _ ih.2⟩

/-- The shape of one round loop run: a pair trace, then either a `Response`
matching an `ok` return, an `Error` matching an endpoint-reported error
return, or nothing at all when a round's request failed to send or its body
failed to parse. -/
theorem loop_shape (endpoint : Nat → ApiOutcome) (execTool : ToolCallReq → Bytes)
    (hnp : ∀ c, (resultPreview (execTool c)).isSome = true) :
    ∀ fuel round, ∃ mid, PairTrace mid ∧
      ((∃ t, (loop endpoint execTool fuel round).1 = mid ++ [.response t] ∧
          (loop endpoint execTool fuel round).2.1 = .ok t) ∨
       (∃ m r, (loop endpoint execTool fuel round).1 = mid ++ [.error m] ∧
          (loop endpoint execTool fuel round).2.1 = .err m ∧ endpoint r = .apiError m) ∨
       (∃ r m, (loop endpoint execTool fuel round).1 = mid ∧
          ((endpoint r = .sendFailure m ∧
            (loop endpoint execTool fuel round).2.1 = .err ("API request failed: " ++ m)) ∨
           (endpoint r = .parseFailure m ∧
            (loop endpoint execTool fuel round).2.1 =
              .err ("Failed to parse API response: " ++ m))))) := by
  intro fuel
  induction fuel with
  | zero =>
    intro round
    exact ⟨[], PairTrace.nil, Or.inl ⟨maxToolCallsMessage, rfl, rfl⟩⟩
  | succ fuel ih =>
    intro round
    cases hep : endpoint round with
    | sendFailure m =>
      exact ⟨[], PairTrace.nil, Or.inr (Or.inr ⟨round, m, by simp [loop, hep],
        Or.inl ⟨hep, by simp [loop, hep]⟩⟩)⟩
    | parseFailure m =>
      exact ⟨[], PairTrace.nil, Or.inr (Or.inr ⟨round, m, by simp [loop, hep],
        Or.inr ⟨hep, by simp [loop, hep]⟩⟩)⟩
    | apiError m =>
      exact ⟨[], PairTrace.nil, Or.inr (Or.inl ⟨m, round, by simp [loop, hep],
        by simp [loop, hep], hep⟩)⟩
    | message content calls =>
      by_cases hc : calls.isEmpty
      · exact ⟨[], PairTrace.nil, Or.inl ⟨content.getD "(no response)",
          by simp [loop, hep, hc], by simp [loop, hep, hc]⟩⟩
      · obtain ⟨hok, htrace⟩ := runCalls_ok execTool hnp calls
        obtain ⟨mid2, hmid2, hcase⟩ := ih (round + 1)
        have hcb : calls.isEmpty = false := by
          cases h : calls.isEmpty
          · rfl
          · exact absurd h hc
        refine ⟨(runCalls execTool calls).1 ++ mid2, htrace.append hmid2, ?_⟩
        rcases hcase with ⟨t, h1, h2⟩ | ⟨m, r, h1, h2, h3⟩ | ⟨r, m, h1, hdisj⟩
        · exact Or.inl ⟨t, by simp [loop, hep, hcb, hok, h1], by simp [loop, hep, hcb, hok, h2]⟩
        · exact Or.inr (Or.inl ⟨m, r, by simp [loop, hep, hcb, hok, h1],
            by simp [loop, hep, hcb, hok, h2], h3⟩)
        · rcases hdisj with ⟨hepr, hres⟩ | ⟨hepr, hres⟩
          · exact Or.inr (Or.inr ⟨r, m, by simp [loop, hep, hcb, hok, h1],
              Or.inl ⟨hepr, by simp [loop, hep, hcb, hok, hres]⟩⟩)
          · exact Or.inr (Or.inr ⟨r, m, by simp [loop, hep, hcb, hok, h1],
              Or.inr ⟨hepr, by simp [loop, hep, hcb, hok, hres]⟩⟩)

/-- C4 counterexample: when the first request fails at the transport level,
the turn returns `Err` after emitting only `Thinking` — no `Response` or
`Error` event is ever emitted, so the claimed "exactly one terminal event"
fails on the code. -/
theorem c4_no_terminal_event_on_transport_failure_cex :
    (runAgentTurn (fun _ => .sendFailure "connection refused") (fun _ => [])).1 =
      [AgentEvent.thinking] ∧
    (runAgentTurn (fun _ => .sendFailure "connection refused") (fun _ => [])).2.1 =
      TurnResult.err "API request failed: connection refused" ∧
    (runAgentTurn (fun _ => .sendFailure "connection refused") (fun _ => [])).1.filter
      (fun e => match e with
        | .response _ => true
        | .error _ => true
        | _ => false) = [] := by
  exact ⟨rfl, rfl, rfl⟩

/-- C4 amended: provided no tool-result preview panics, every turn's event
trace is `Thinking` first, then (ToolCall, ToolResult) pairs in dispatch
order; a turn that returns `Ok t` ends with a final `Response t` event, a turn
that ends on an endpoint-reported error ends with a final `Error m` event, but
a turn whose request failed to send or parse returns `Err` with no terminal
event at all. -/
theorem c4_event_order (endpoint : Nat → ApiOutcome) (execTool : ToolCallReq → Bytes)
    (hnp : ∀ c, (resultPreview (execTool c)).isSome = true) :
    ∃ mid, PairTrace mid ∧
      ((∃ t, (runAgentTurn endpoint execTool).1 = .thinking :: mid ++ [.response t] ∧
          (runAgentTurn endpoint execTool).2.1 = .ok t) ∨
       (∃ m r, (runAgentTurn endpoint execTool).1 = .thinking :: mid ++ [.error m] ∧
          (runAgentTurn endpoint execTool).2.1 = .err m ∧ endpoint r = .apiError m) ∨
       (∃ r m, (runAgentTurn endpoint execTool).1 = .thinking :: mid ∧
          ((endpoint r = .sendFailure m ∧
            (runAgentTurn endpoint execTool).2.1 = .err ("API request failed: " ++ m)) ∨
           (endpoint r = .parseFailure m ∧
            (runAgentTurn endpoint execTool).2.1 =
              .err ("Failed to parse API response: " ++ m))))) := by
  obtain ⟨mid, hmid, hcase⟩ := loop_shape endpoint execTool hnp maxToolRounds 0
  refine ⟨mid, hmid, ?_⟩
  rcases hcase with ⟨t, h1, h2⟩ | ⟨m, r, h1, h2, h3⟩ | ⟨r, m, h1, hdisj⟩
  · exact Or.inl ⟨t, by rw [runAgentTurn, h1]; rfl, h2⟩
  · exact Or.inr (Or.inl ⟨m, r, by rw [runAgentTurn, h1]; rfl, h2, h3⟩)
  · rcases hdisj with ⟨hepr, hres⟩ | ⟨hepr, hres⟩
    · exact Or.inr (Or.inr ⟨r, m, by rw [runAgentTurn, h1], Or.inl ⟨hepr, hres⟩⟩)
    · exact Or.inr (Or.inr ⟨r, m, by rw [runAgentTurn, h1], Or.inr ⟨hepr, hres⟩⟩)

/-- C4 witness: the amended theorem applied to an endpoint that replies
"hello" with no tool calls. -/
theorem c4_event_order_witness :
    (∀ c : ToolCallReq,
      (resultPreview ((fun _ => ([] : Bytes)) c)).isSome = true) ∧
    (∃ mid, PairTrace mid ∧
      ((∃ t, (runAgentTurn (fun _ => .message (some "hello") []) (fun _ => [])).1 =
            .thinking :: mid ++ [.response t] ∧
          (runAgentTurn (fun _ => .message (some "hello") []) (fun _ => [])).2.1 = .ok t) ∨
       (∃ m r, (runAgentTurn (fun _ => .message (some "hello") []) (fun _ => [])).1 =
            .thinking :: mid ++ [.error m] ∧
          (runAgentTurn (fun _ => .message (some "hello") []) (fun _ => [])).2.1 = .err m ∧
          (fun _ : Nat => ApiOutcome.message (some "hello") []) r = .apiError m) ∨
       (∃ r m, (runAgentTurn (fun _ => .message (some "hello") []) (fun _ => [])).1 =
            .thinking :: mid ∧
          (((fun _ : Nat => ApiOutcome.message (some "hello") []) r = .sendFailure m ∧
            (runAgentTurn (fun _ => .message (some "hello") []) (fun _ => [])).2.1 =
              .err ("API request failed: " ++ m)) ∨
           ((fun _ : Nat => ApiOutcome.message (some "hello") []) r = .parseFailure m ∧
            (runAgentTurn (fun _ => .message (some "hello") []) (fun _ => [])).2.1 =
              .err ("Failed to parse API response: " ++ m)))))) := by
  exact ⟨fun _ => rfl,
    c4_event_order (fun _ => .message (some "hello") []) (fun _ => []) (fun _ => rfl)⟩

/-- C5: when the model requests at least one tool on every round (and no
result preview panics), the loop issues exactly `MAX_TOOL_ROUNDS = 10`
requests, returns the fixed maximum-tool-calls message as `Ok`, and the last
emitted event is `Response` of that same message. -/
theorem c5_max_rounds_termination (endpoint : Nat → ApiOutcome)
    (execTool : ToolCallReq → Bytes)
    (h1 : ∀ r, ∃ content calls, endpoint r = .message content calls ∧ calls ≠ [])
    (hnp : ∀ c, (resultPreview (execTool c)).isSome = true) :
    (runAgentTurn endpoint execTool).2.2 = 10 ∧
    (runAgentTurn endpoint execTool).2.1 = .ok maxToolCallsMessage ∧
    (runAgentTurn endpoint execTool).1.getLast? =
      some (.response maxToolCallsMessage) := by
  have key : ∀ fuel round, ∃ evs,
      (loop endpoint execTool fuel round).1 = evs ++ [.response maxToolCallsMessage] ∧
      (loop endpoint execTool fuel round).2.1 = .ok maxToolCallsMessage ∧
      (loop endpoint execTool fuel round).2.2 = fuel := by
    intro fuel
    induction fuel with
    | zero => intro round; exact ⟨[], rfl, rfl, rfl⟩
    | succ fuel ih =>
      intro round
      obtain ⟨content, calls, hep, hne⟩ := h1 round
      have hcb : calls.isEmpty = false := by
        cases calls
        · exact absurd rfl hne
        · rfl
      obtain ⟨hok, -⟩ := runCalls_ok execTool hnp calls
      obtain ⟨evs2, ha, hb, hcnt⟩ := ih (round + 1)
      exact ⟨(runCalls execTool calls).1 ++ evs2,
        by simp [loop, hep, hcb, hok, ha],
        by simp [loop, hep, hcb, hok, hb],
        by simp [loop, hep, hcb, hok, hcnt]⟩
  obtain ⟨evs, ha, hb, hcnt⟩ := key maxToolRounds 0
  refine ⟨hcnt, hb, ?_⟩
  show (AgentEvent.thinking :: (loop endpoint execTool maxToolRounds 0).1).getLast? = _
  rw [ha]
  exact List.getLast?_concat (AgentEvent.thinking :: evs)

/-- C5 witness: the theorem applied to a model that always requests one
`shell` call. -/
theorem c5_max_rounds_termination_witness :
    maxToolRounds = 10 ∧
    (runAgentTurn (fun _ => .message none [⟨"1", "shell", "ls"⟩])
      (fun _ => [111, 107])).2.2 = 10 ∧
    (runAgentTurn (fun _ => .message none [⟨"1", "shell", "ls"⟩])
      (fun _ => [111, 107])).2.1 = .ok maxToolCallsMessage := by
  have h := c5_max_rounds_termination (fun _ => .message none [⟨"1", "shell", "ls"⟩])
    (fun _ => [111, 107])
    (fun _ => ⟨none, [⟨"1", "shell", "ls"⟩], rfl, by simp⟩) (fun _ => rfl)
  exact ⟨rfl, h.1, h.2.1⟩

end Argus.Agent
